import Mathlib

/-!
# Input defence pipeline of `script.js`

A shallow embedding of `sanitizeInput`, `validateInput`, `rateLimiter.canSubmit` and
`secureFormSubmit` from `src/script.js`, together with theorems about them.

JavaScript strings are sequences of UTF-16 code units; a string is modelled as the list of
its code units (natural numbers).  `length`, `replace`, `trim` and regular expressions
without the `u` flag all work on code units.
-/

namespace OneVec

/-! ## Strings -/

/-- A JavaScript string: the list of its UTF-16 code units. -/
abbrev JSString := List Nat

/-- UTF-16 encoding of one Unicode scalar value. -/
def utf16 (c : Char) : List Nat :=
  if c.toNat < 65536 then [c.toNat]
  else [55296 + (c.toNat - 65536) / 1024, 56320 + (c.toNat - 65536) % 1024]

/-- The JavaScript string written as a Lean string literal. -/
def js (s : String) : JSString := s.toList.flatMap utf16

/-- ECMAScript `WhiteSpace` and `LineTerminator` code points: the characters removed by
`String.prototype.trim` and matched by the class escape `\s`. -/
def isWhiteSpace (c : Nat) : Bool :=
  c == 9 || c == 10 || c == 11 || c == 12 || c == 13 || c == 32 || c == 160 ||
  c == 5760 || (8192 ≤ c && c ≤ 8202) || c == 8232 || c == 8233 || c == 8239 ||
  c == 8287 || c == 12288 || c == 65279

/-- `String.prototype.trim`: strip leading and trailing white space. -/
def trim (s : JSString) : JSString :=
  ((s.dropWhile isWhiteSpace).reverse.dropWhile isWhiteSpace).reverse

/-! ## Values -/

/-- JavaScript values, as far as `typeof` tells them apart. -/
inductive JSValue where
  | str (s : JSString)
  | num (n : Int)
  | bool (b : Bool)
  | null
  | undefined
  | object
  | array
  | func
  | symbol
  | bigint (n : Int)

/-- The results of the `typeof` operator. -/
inductive JSType where
  | string | number | boolean | object | undefined | function | symbol | bigint
  deriving DecidableEq

/-- The `typeof` operator. -/
def typeOf : JSValue → JSType
  | .str _ => .string
  | .num _ => .number
  | .bool _ => .boolean
  | .null => .object
  | .undefined => .undefined
  | .object => .object
  | .array => .object
  | .func => .function
  | .symbol => .symbol
  | .bigint _ => .bigint

/-! ## sanitizeInput (script.js 197-214) -/

/-- The character class `[<>\"'&]` of the pattern passed to `replace`. -/
def isEscapeChar (c : Nat) : Bool :=
  c == 60 || c == 62 || c == 34 || c == 39 || c == 38

/-- The object literal `escapeMap`: a property lookup by a one-character key. -/
def escapeMap (c : Nat) : Option JSString :=
  if c = 60 then some (js "&lt;")
  else if c = 62 then some (js "&gt;")
  else if c = 34 then some (js "&quot;")
  else if c = 39 then some (js "&#x27;")
  else if c = 38 then some (js "&amp;")
  else none

/-- The replacer callback: `escapeMap[match]`, converted to a string by `replace`. -/
def replacer (c : Nat) : JSString :=
  match escapeMap c with
  | some r => r
  | none => js "undefined"

/-- `input.replace(/[<>\"'&]/g, replacer)`: every match of the one-character class is
replaced by the callback result, everything else is copied. -/
def replaceEscapes (s : JSString) : JSString :=
  s.flatMap (fun c => if isEscapeChar c then replacer c else [c])

/-- `sanitizeInput`.  No operation of the `try` block can throw, so the `catch` branch is
never taken and the function is total. -/
def sanitizeInput (input : JSValue) : JSString :=
  match input with
  | .str s => trim (replaceEscapes s)
  | _ => []

/-! ## Regular expressions

The three patterns of `validateInput` are anchored at both ends (`^ ... $`, no flags) and
are sequences of character classes, each with a quantifier.  `RegExp.prototype.test` is
modelled for this fragment by a greedy backtracking matcher over code units. -/

/-- One term of a pattern: a character class repeated `min` to `max` times (`max = none`
when there is no upper bound).  A literal character is a class with quantifier `{1,1}`. -/
structure Atom where
  cls : Nat → Bool
  min : Nat
  max : Option Nat

/-- Whether a quantifier with upper bound `max` allows one more repetition. -/
def canRepeat : Option Nat → Bool
  | none => true
  | some m => decide (0 < m)

/-- Greedy repetition of a character class followed by the continuation `k`: first try to
consume one more character, and fall back to the continuation once the lower bound is
reached. -/
def matchRep (cls : Nat → Bool) (k : JSString → Bool) : Nat → Option Nat → JSString → Bool
  | min, _, [] => decide (min = 0) && k []
  | min, max, c :: cs =>
    (cls c && canRepeat max && matchRep cls k (min - 1) (max.map (· - 1)) cs) ||
      (decide (min = 0) && k (c :: cs))

/-- Match a sequence of terms against a whole string: `^` fixes the start at position 0 and
`$` (without the `m` flag) accepts only the end of the input. -/
def matchAtoms : List Atom → JSString → Bool
  | [], s => s.isEmpty
  | a :: rest, s => matchRep a.cls (fun t => matchAtoms rest t) a.min a.max s

/-- The class `[a-zA-Z]`. -/
def isAsciiLetter (c : Nat) : Bool := (97 ≤ c && c ≤ 122) || (65 ≤ c && c ≤ 90)

/-- The class `[0-9]`. -/
def isDigit (c : Nat) : Bool := 48 ≤ c && c ≤ 57

/-- The class `[a-zA-Z0-9._%+-]`. -/
def isEmailLocalChar (c : Nat) : Bool :=
  isAsciiLetter c || isDigit c || c == 46 || c == 95 || c == 37 || c == 43 || c == 45

/-- The class `[a-zA-Z0-9.-]`. -/
def isEmailDomainChar (c : Nat) : Bool :=
  isAsciiLetter c || isDigit c || c == 46 || c == 45

/-- The class `[0-9\s\-\(\)]`. -/
def isPhoneChar (c : Nat) : Bool :=
  isDigit c || isWhiteSpace c || c == 45 || c == 40 || c == 41

/-- The class `[a-zA-ZÀ-ÿ\s\-']`; the range `À-ÿ` is U+00C0 to U+00FF. -/
def isNameChar (c : Nat) : Bool :=
  isAsciiLetter c || (192 ≤ c && c ≤ 255) || isWhiteSpace c || c == 45 || c == 39

/-- The pattern `/^[a-zA-Z0-9._%+-]+@[a-zA-Z0-9.-]+\.[a-zA-Z]{2,}$/`. -/
def emailPattern : List Atom :=
  [⟨isEmailLocalChar, 1, none⟩, ⟨fun c => c == 64, 1, some 1⟩, ⟨isEmailDomainChar, 1, none⟩,
   ⟨fun c => c == 46, 1, some 1⟩, ⟨isAsciiLetter, 2, none⟩]

/-- The pattern `/^\+?[0-9\s\-\(\)]{8,20}$/`. -/
def phonePattern : List Atom :=
  [⟨fun c => c == 43, 0, some 1⟩, ⟨isPhoneChar, 8, some 20⟩]

/-- The pattern `/^[a-zA-ZÀ-ÿ\s\-']{2,50}$/`. -/
def namePattern : List Atom :=
  [⟨isNameChar, 2, some 50⟩]

/-! ## validateInput (script.js 216-236) -/

/-- `validateInput(input, type = 'text')`.  The default parameter value replaces
`undefined`; the `switch` compares `type` with the four string labels by strict equality
and every other value takes the `default` branch.  As no operation of the `try` block can
throw, the `catch` branch is never taken. -/
def validateInput (input : JSValue) (type : JSValue := .str (js "text")) : Bool :=
  let sanitized := sanitizeInput input
  let label : Option JSString :=
    match type with
    | .undefined => some (js "text")
    | .str t => some t
    | _ => none
  if label = some (js "email") then matchAtoms emailPattern sanitized
  else if label = some (js "phone") then matchAtoms phonePattern sanitized
  else if label = some (js "name") then
    matchAtoms namePattern sanitized && decide (sanitized.length ≥ 2)
  else if label = some (js "text") then
    decide (sanitized.length > 0) && decide (sanitized.length ≤ 1000)
  else decide (sanitized.length > 0)

/-! ## rateLimiter (script.js 239-268) -/

/-- The `attempts` map of `rateLimiter`: for each key, the stored array of timestamps, or
`none` when `has(key)` is false. -/
abbrev AttemptMap := JSString → Option (List Int)

/-- `new Map()`. -/
def AttemptMap.empty : AttemptMap := fun _ => none

/-- `Map.prototype.set`. -/
def AttemptMap.set (m : AttemptMap) (key : JSString) (v : List Int) : AttemptMap :=
  fun k => if k = key then some v else m k

/-- The mutable state of the object `rateLimiter`. -/
structure RateLimiter where
  attempts : AttemptMap

/-- The property `maxAttempts: 5`. -/
def maxAttempts : Nat := 5

/-- The property `timeWindow: 300000` (milliseconds). -/
def timeWindow : Int := 300000

/-- The key `formId + '_' + (navigator.userAgent || 'unknown').substring(0, 50)`. -/
def rateKey (formId userAgent : JSString) : JSString :=
  formId ++ js "_" ++ (if userAgent = [] then js "unknown" else userAgent).take 50

/-- The array stored for a key, empty when there is none. -/
def RateLimiter.log (rl : RateLimiter) (key : JSString) : List Int :=
  (rl.attempts key).getD []

/-- `rateLimiter.canSubmit(formId)`, with the clock reading `Date.now()` and
`navigator.userAgent` as explicit inputs; returns the result and the new state.
`validAttempts.push(now)` mutates the array that was just stored in the map, so the stored
log ends with `now` after a granted call.  Nothing in the `try` block throws. -/
def canSubmit (rl : RateLimiter) (now : Int) (userAgent formId : JSString) :
    Bool × RateLimiter :=
  let key := rateKey formId userAgent
  let m1 : AttemptMap :=
    if (rl.attempts key).isSome then rl.attempts else rl.attempts.set key []
  let attempts := (m1 key).getD []
  let validAttempts := attempts.filter (fun time => decide (now - time < timeWindow))
  let m2 := m1.set key validAttempts
  if validAttempts.length ≥ maxAttempts then (false, ⟨m2⟩)
  else (true, ⟨m2.set key (validAttempts ++ [now])⟩)

/-- One call of `canSubmit` together with its environment. -/
structure Call where
  formId : JSString
  userAgent : JSString
  now : Int

/-- A sequence of `canSubmit` calls run from a given state: every call paired with its
result. -/
def runCalls : RateLimiter → List Call → List (Call × Bool)
  | _, [] => []
  | rl, c :: cs =>
    (c, (canSubmit rl c.now c.userAgent c.formId).1) ::
      runCalls (canSubmit rl c.now c.userAgent c.formId).2 cs

/-- The times of the calls for key `k` that returned `true`, in call order. -/
def grantedTimes (k : JSString) (tr : List (Call × Bool)) : List Int :=
  (tr.filter (fun e => e.2 && decide (rateKey e.1.formId e.1.userAgent = k))).map
    (fun e => e.1.now)

/-! ## secureFormSubmit (script.js 328-371) -/

/-- A form control as `secureFormSubmit` reads it: the properties `value`, `type`, `name`,
`placeholder` and `required`. -/
structure Field where
  value : JSString
  type : JSString
  name : JSString
  placeholder : JSString
  required : Bool

/-- Lower-case form of one code unit: `A-Z` and the capital letters of U+00C0 to U+00DE
(not the sign U+00D7) move up by 32.  Code units from U+0100 on are left as they are; the
letters `n`, `o`, `m` searched for below are the lower-case forms of `N`, `O`, `M` only. -/
def lowerUnit (c : Nat) : Nat :=
  if (65 ≤ c ∧ c ≤ 90) ∨ (192 ≤ c ∧ c ≤ 222 ∧ c ≠ 215) then c + 32 else c

/-- `String.prototype.toLowerCase`. -/
def toLowerCase (s : JSString) : JSString := s.map lowerUnit

/-- Whether the string starts with the pattern. -/
def startsWith : JSString → JSString → Bool
  | _, [] => true
  | [], _ :: _ => false
  | c :: cs, q :: qs => c == q && startsWith cs qs

/-- `String.prototype.includes`: the pattern occurs at some position. -/
def includes : JSString → JSString → Bool
  | [], pat => startsWith [] pat
  | c :: cs, pat => startsWith (c :: cs) pat || includes cs pat

/-- The `validationType` inferred for a control (script.js 346-349). -/
def validationType (input : Field) : JSString :=
  if input.type = js "email" then js "email"
  else if input.type = js "tel" then js "phone"
  else if input.name = js "name" ∨
      (input.placeholder ≠ [] ∧ includes (toLowerCase input.placeholder) (js "nom") = true)
    then js "name"
  else js "text"

/-- What the user is shown: the `alert` of the rate limit and the calls of
`showValidationMessage(input, message, isValid)`. -/
inductive Effect where
  | alert (message : JSString)
  | showMessage (input : Field) (message : JSString) (isValid : Bool)

/-- The body of the `forEach` callback for one control: whether the control leaves
`isValid` untouched, and the messages shown.  The local object `formData` is never read
and is left out. -/
def processInput (input : Field) : Bool × List Effect :=
  let value := sanitizeInput (.str input.value)
  let fieldName :=
    if input.name ≠ [] then input.name else if input.type ≠ [] then input.type else js "field"
  if input.required && !validateInput (.str value) (.str (validationType input)) then
    (false, [Effect.showMessage input (fieldName ++ js " invalide ou requis") false])
  else if value ≠ [] then
    (true, if input.required then [Effect.showMessage input (js "Valide") true] else [])
  else (true, [])

/-- The outcome of `secureFormSubmit`: the returned boolean, the state of the rate limiter
afterwards and the messages shown. -/
structure SubmitOutcome where
  result : Bool
  limiter : RateLimiter
  effects : List Effect

/-- `secureFormSubmit(form, formId)`; `form` is `none` for a null form and otherwise the
list of controls returned by `form.querySelectorAll('input, textarea, select')`. -/
def secureFormSubmit (rl : RateLimiter) (now : Int) (userAgent : JSString)
    (form : Option (List Field)) (formId : JSString) : SubmitOutcome :=
  match form with
  | none => ⟨false, rl, []⟩
  | some inputs =>
    if (canSubmit rl now userAgent formId).1 = false then
      ⟨false, (canSubmit rl now userAgent formId).2,
        [Effect.alert
          (js "Trop de tentatives. Veuillez attendre 5 minutes avant de réessayer.")]⟩
    else
      ⟨(inputs.map processInput).all (fun r => r.1),
        (canSubmit rl now userAgent formId).2,
        (inputs.map processInput).flatMap (fun r => r.2)⟩

/-- The field type as the specification of the submission gate words it: email for type
`email`, phone for type `tel`, name for a field named `name` or whose placeholder contains
`nom`, text otherwise. -/
def specValidationType (input : Field) : JSString :=
  if input.type = js "email" then js "email"
  else if input.type = js "tel" then js "phone"
  else if input.name = js "name" ∨ includes input.placeholder (js "nom") = true then js "name"
  else js "text"

/-- The verdict as the specification of the submission gate words it: the limiter grants
the attempt and every required field passes `validateInput` for its type. -/
def specSubmitAllowed (rl : RateLimiter) (now : Int) (userAgent : JSString)
    (inputs : List Field) (formId : JSString) : Bool :=
  (canSubmit rl now userAgent formId).1 &&
    inputs.all (fun f => !f.required || validateInput (.str f.value) (.str (specValidationType f)))

/-- The rule for a text field as the specification words it: the raw value, sanitized once
by `sanitizeInput`, is non-empty and at most 1000 characters long. -/
def specTextAccepted (input : Field) : Bool :=
  decide (0 < (sanitizeInput (.str input.value)).length) &&
    decide ((sanitizeInput (.str input.value)).length ≤ 1000)

/-- The at-most-5-in-window property of a list of granted times: around every granted time
`t`, at most 5 granted times lie in the half-open interval `(t - 300000, t]`. -/
def WindowOk (G : List Int) : Prop :=
  ∀ t ∈ G, (G.filter (fun s => decide (t - 300000 < s) && decide (s ≤ t))).length ≤ 5

/-- The invariant linking the stored log of key `k` with the times `G` granted so far for
`k`, when no call so far was made after time `T`: the log and `G` agree on everything
younger than the window, no granted time is later than `T`, and `G` is `WindowOk`. -/
structure LogInv (rl : RateLimiter) (k : JSString) (G : List Int) (T : Int) : Prop where
  agree : ∀ θ : Int, T - 300000 ≤ θ →
    G.filter (fun s => decide (θ < s)) = (rl.log k).filter (fun s => decide (θ < s))
  bound : ∀ s ∈ G, s ≤ T
  ok : WindowOk G

/-- An accented Latin letter: the letters of the Latin-1 Supplement (U+00C0 to U+00FF
without the signs U+00D7 and U+00F7), of Latin Extended-A and B and of Latin Extended
Additional. -/
def isAccentedLatinLetter (c : Nat) : Bool :=
  (192 ≤ c && c ≤ 214) || (216 ≤ c && c ≤ 246) || (248 ≤ c && c ≤ 591) ||
    (7680 ≤ c && c ≤ 7935)

/-- The characters the specification allows in a name: an alphabetic letter (ASCII or
accented Latin), a space, a hyphen or an apostrophe. -/
def specNameChar (c : Nat) : Bool :=
  isAsciiLetter c || isAccentedLatinLetter c || c == 32 || c == 45 || c == 39

/-- The specification's rule for a name, on the sanitized value: 2 to 50 characters, each
of them allowed by `specNameChar`. -/
def specNameOk (t : JSString) : Bool :=
  decide (2 ≤ t.length) && decide (t.length ≤ 50) && t.all specNameChar

/-- The pass described by the specification of the sanitizer: the characters are read once
from left to right, each of the five HTML-significant characters is replaced by its entity,
any other character is kept, and the substituted text is not read again. -/
def escapePass : JSString → JSString
  | [] => []
  | c :: cs =>
    (if c = 60 then js "&lt;"
     else if c = 62 then js "&gt;"
     else if c = 34 then js "&quot;"
     else if c = 39 then js "&#x27;"
     else if c = 38 then js "&amp;"
     else [c]) ++ escapePass cs

end OneVec

namespace OneVec

/-! ## Theorems: sanitizeInput -/

theorem trim_eq_rdropWhile (x : JSString) :
    trim x = (x.dropWhile isWhiteSpace).rdropWhile isWhiteSpace := rfl

theorem trim_decomp (x : JSString) :
    ∃ pre post : JSString, (∀ c ∈ pre, isWhiteSpace c = true) ∧
      (∀ c ∈ post, isWhiteSpace c = true) ∧ x = pre ++ trim x ++ post := by
  refine ⟨x.takeWhile isWhiteSpace, (x.dropWhile isWhiteSpace).rtakeWhile isWhiteSpace,
    fun c hc => List.mem_takeWhile_imp hc, fun c hc => List.mem_rtakeWhile_imp hc, ?_⟩
  have h : ∀ l : JSString, l.rdropWhile isWhiteSpace ++ l.rtakeWhile isWhiteSpace = l := by
    intro l
    rw [List.rdropWhile, List.rtakeWhile, ← List.reverse_append,
      List.takeWhile_append_dropWhile, List.reverse_reverse]
  rw [trim_eq_rdropWhile, List.append_assoc, h, List.takeWhile_append_dropWhile]

theorem trim_head_not_ws (x : JSString) (c : Nat) (h : (trim x).head? = some c) :
    isWhiteSpace c = false := by
  obtain ⟨t, ht⟩ : trim x <+: x.dropWhile isWhiteSpace := by
    rw [trim_eq_rdropWhile]; exact List.rdropWhile_prefix _ _
  have h1 := List.head?_dropWhile_not isWhiteSpace x
  cases hx : trim x with
  | nil => rw [hx] at h; simp at h
  | cons a r =>
    rw [hx] at h ht
    simp only [List.head?_cons, Option.some.injEq] at h
    rw [← ht] at h1
    simpa [h] using h1

theorem trim_last_not_ws (x : JSString) (c : Nat) (h : (trim x).getLast? = some c) :
    isWhiteSpace c = false := by
  have hne : (x.dropWhile isWhiteSpace).rdropWhile isWhiteSpace ≠ [] := by
    intro h0; rw [trim_eq_rdropWhile, h0] at h; simp at h
  have h1 := List.rdropWhile_last_not isWhiteSpace _ hne
  rw [trim_eq_rdropWhile, List.getLast?_eq_getLast _ hne] at h
  simp only [Option.some.injEq] at h
  rw [h] at h1
  simpa using h1

theorem js_lt : js "&lt;" = [38, 108, 116, 59] := by decide
theorem js_gt : js "&gt;" = [38, 103, 116, 59] := by decide
theorem js_quot : js "&quot;" = [38, 113, 117, 111, 116, 59] := by decide
theorem js_apos : js "&#x27;" = [38, 35, 120, 50, 55, 59] := by decide
theorem js_amp : js "&amp;" = [38, 97, 109, 112, 59] := by decide

theorem isEscapeChar_iff (c : Nat) :
    isEscapeChar c = true ↔ c = 60 ∨ c = 62 ∨ c = 34 ∨ c = 39 ∨ c = 38 := by
  simp [isEscapeChar, or_assoc]

theorem replacer_of_escape (a : Nat) (h : isEscapeChar a = true) :
    replacer a = [38, 108, 116, 59] ∨ replacer a = [38, 103, 116, 59] ∨
    replacer a = [38, 113, 117, 111, 116, 59] ∨ replacer a = [38, 35, 120, 50, 55, 59] ∨
    replacer a = [38, 97, 109, 112, 59] := by
  rcases (isEscapeChar_iff a).1 h with h | h | h | h | h <;> subst h <;>
    simp [replacer, escapeMap, js_lt, js_gt, js_quot, js_apos, js_amp]

theorem replaceEscapes_cons (c : Nat) (cs : JSString) :
    replaceEscapes (c :: cs) =
      (if isEscapeChar c then replacer c else [c]) ++ replaceEscapes cs := by
  simp [replaceEscapes]

theorem replaceEscapes_eq_escapePass (s : JSString) : replaceEscapes s = escapePass s := by
  induction s with
  | nil => rfl
  | cons c cs ih =>
    rw [replaceEscapes_cons, escapePass, ih]
    congr 1
    simp only [isEscapeChar, replacer, escapeMap]
    split_ifs <;> simp_all

theorem count_trim (x : JSString) (c : Nat) (hc : isWhiteSpace c = false) :
    (trim x).count c = x.count c := by
  obtain ⟨pre, post, hpre, hpost, hx⟩ := trim_decomp x
  have h0 : ∀ l : JSString, (∀ d ∈ l, isWhiteSpace d = true) → l.count c = 0 := by
    intro l hl
    rw [List.count_eq_zero]
    intro hmem
    rw [hl c hmem] at hc
    exact absurd hc (by simp)
  conv_rhs => rw [hx]
  rw [List.count_append, List.count_append, h0 pre hpre, h0 post hpost]
  omega

theorem trim_sublist (x : JSString) : (trim x).Sublist x := by
  rw [trim_eq_rdropWhile]
  exact (List.rdropWhile_prefix _ _).sublist.trans (List.dropWhile_sublist _)

theorem trim_eq_self (y : JSString)
    (hh : ∀ c, y.head? = some c → isWhiteSpace c = false)
    (hl : ∀ c, y.getLast? = some c → isWhiteSpace c = false) : trim y = y := by
  have h1 : y.dropWhile isWhiteSpace = y := by
    cases y with
    | nil => rfl
    | cons a r =>
      have := hh a rfl
      simp [List.dropWhile_cons, this]
  rw [trim_eq_rdropWhile, h1, List.rdropWhile_eq_self_iff]
  intro hne
  have := hl _ (List.getLast?_eq_getLast _ hne)
  simp [this]

theorem trim_trim (x : JSString) : trim (trim x) = trim x :=
  trim_eq_self _ (trim_head_not_ws x) (trim_last_not_ws x)

theorem replaceEscapes_eq_self (s : JSString) (h : ∀ c ∈ s, isEscapeChar c = false) :
    replaceEscapes s = s := by
  induction s with
  | nil => rfl
  | cons c cs ih =>
    rw [replaceEscapes_cons, ih (fun d hd => h d (List.mem_cons_of_mem _ hd)),
      h c (List.mem_cons_self _ _)]
    rfl

theorem count_semicolon_replaceEscapes (t : JSString) :
    (replaceEscapes t).count 59 = t.count 59 + t.countP isEscapeChar := by
  induction t with
  | nil => rfl
  | cons c cs ih =>
    rw [replaceEscapes_cons, List.count_append, ih, List.count_cons, List.countP_cons]
    by_cases hc : isEscapeChar c = true
    · have h59 : c ≠ 59 := by
        rcases (isEscapeChar_iff c).1 hc with h | h | h | h | h <;> omega
      rw [if_pos hc]
      have h1 : (replacer c).count 59 = 1 := by
        rcases replacer_of_escape c hc with h | h | h | h | h <;> rw [h] <;> decide
      simp [hc, h59, h1]
      omega
    · simp only [Bool.not_eq_true] at hc
      simp only [hc, Bool.false_eq_true, if_false, List.count_cons, List.count_nil]
      simp
      omega

theorem amp_mem_replaceEscapes (s : JSString) (a : Nat) (ha : a ∈ s)
    (hesc : isEscapeChar a = true) : 38 ∈ replaceEscapes s := by
  rw [replaceEscapes, List.mem_flatMap]
  refine ⟨a, ha, ?_⟩
  rw [if_pos hesc]
  rcases replacer_of_escape a hesc with h | h | h | h | h <;> rw [h] <;> simp

theorem mem_replaceEscapes (s : JSString) (c : Nat) (hc : c ∈ replaceEscapes s) :
    c ≠ 60 ∧ c ≠ 62 ∧ c ≠ 34 ∧ c ≠ 39 := by
  rw [replaceEscapes, List.mem_flatMap] at hc
  obtain ⟨a, _, hca⟩ := hc
  by_cases hesc : isEscapeChar a = true
  · rw [if_pos hesc] at hca
    rcases replacer_of_escape a hesc with h | h | h | h | h <;> rw [h] at hca <;>
      simp at hca <;> omega
  · rw [if_neg hesc] at hca
    simp only [List.mem_singleton] at hca
    subst hca
    have := (isEscapeChar_iff c).not.1 hesc
    omega

/-- C1: on a string, `sanitizeInput` returns the result of the single left-to-right
escaping pass (`escapePass`) with its leading and trailing white space removed: the pass
result is white space, then the sanitized value, then white space, and the sanitized value
neither starts nor ends with a white-space character.  In particular
`sanitizeInput("<script>") = "&lt;script&gt;"`. -/
theorem sanitizeInput_is_pass_then_trim (s : JSString) :
    (∃ pre post : JSString, (∀ c ∈ pre, isWhiteSpace c = true) ∧
      (∀ c ∈ post, isWhiteSpace c = true) ∧
      escapePass s = pre ++ sanitizeInput (.str s) ++ post) ∧
    (∀ c, (sanitizeInput (.str s)).head? = some c → isWhiteSpace c = false) ∧
    (∀ c, (sanitizeInput (.str s)).getLast? = some c → isWhiteSpace c = false) ∧
    sanitizeInput (.str (js "<script>")) = js "&lt;script&gt;" := by
  refine ⟨?_, trim_head_not_ws _, trim_last_not_ws _, by decide⟩
  rw [← replaceEscapes_eq_escapePass]
  exact trim_decomp _

/-- C2, as stated, fails: sanitizing `"&"` gives `"&amp;"`, and sanitizing that gives
`"&amp;amp;"`. -/
theorem sanitizeInput_not_idempotent :
    sanitizeInput (.str (sanitizeInput (.str (js "&")))) ≠ sanitizeInput (.str (js "&")) := by
  decide

/-- C2, amended: `sanitizeInput` applied twice gives the same as applied once exactly for
the strings that contain none of the five escaped characters. -/
theorem sanitizeInput_idempotent_iff (s : JSString) :
    sanitizeInput (.str (sanitizeInput (.str s))) = sanitizeInput (.str s) ↔
      ∀ c ∈ s, isEscapeChar c = false := by
  constructor
  · intro h c hc
    by_contra hesc
    simp only [Bool.not_eq_false] at hesc
    have h38 : 38 ∈ trim (replaceEscapes s) := by
      have := amp_mem_replaceEscapes s c hc hesc
      rw [← List.count_pos_iff, count_trim _ 38 (by decide), List.count_pos_iff]
      exact this
    have hcount := congrArg (List.count 59) h
    simp only [sanitizeInput] at hcount
    rw [count_trim _ 59 (by decide), count_semicolon_replaceEscapes] at hcount
    have hpos : 0 < (trim (replaceEscapes s)).countP isEscapeChar :=
      List.countP_pos_iff.2 ⟨38, h38, by decide⟩
    omega
  · intro h
    simp only [sanitizeInput]
    rw [replaceEscapes_eq_self s h]
    rw [replaceEscapes_eq_self (trim s) (fun c hc => h c ((trim_sublist s).subset hc))]
    exact trim_trim s

/-- C3, as stated, fails: the sanitized form of `"<"` is `"&lt;"`, which contains `&`. -/
theorem sanitizeInput_output_has_amp : 38 ∈ sanitizeInput (.str (js "<")) := by
  decide

/-- C3, amended: the result of `sanitizeInput` on a string contains none of the four
characters `<`, `>`, `"` and the apostrophe. -/
theorem sanitizeInput_output_free_of_markup (s : JSString) (c : Nat) :
    c ∈ sanitizeInput (.str s) → c ≠ 60 ∧ c ≠ 62 ∧ c ≠ 34 ∧ c ≠ 39 := by
  intro hc
  exact mem_replaceEscapes s c ((trim_sublist _).subset hc)

/-- Witness for C3: `&lt;script&gt;` has the letter `s` (115), which is not a markup
character. -/
theorem sanitizeInput_output_free_of_markup_witness :
    115 ∈ sanitizeInput (.str (js "<script>")) ∧ (115 ≠ 60 ∧ 115 ≠ 62 ∧ 115 ≠ 34 ∧ 115 ≠ 39) :=
  ⟨by decide, sanitizeInput_output_free_of_markup (js "<script>") 115 (by decide)⟩

/-- C10: for every input whose `typeof` is not `string`, `sanitizeInput` returns the empty
string (the function is total: no exception is raised). -/
theorem sanitizeInput_non_string (v : JSValue) (h : typeOf v ≠ JSType.string) :
    sanitizeInput v = [] := by
  cases v <;> first | rfl | exact absurd rfl h

/-- Witness for C10: the number 42. -/
theorem sanitizeInput_non_string_witness :
    typeOf (JSValue.num 42) ≠ JSType.string ∧ sanitizeInput (JSValue.num 42) = [] :=
  ⟨by decide, sanitizeInput_non_string (JSValue.num 42) (by decide)⟩

/-! ## Theorems: validateInput -/

theorem matchRep_iff (cls : Nat → Bool) (k : JSString → Bool) (s : JSString) :
    ∀ (min : Nat) (max : Option Nat),
      matchRep cls k min max s = true ↔
        ∃ pre post : JSString, s = pre ++ post ∧ (∀ c ∈ pre, cls c = true) ∧
          min ≤ pre.length ∧ (∀ m, max = some m → pre.length ≤ m) ∧ k post = true := by
  induction s with
  | nil =>
    intro min max
    simp only [matchRep, Bool.and_eq_true, decide_eq_true_eq]
    constructor
    · rintro ⟨h0, hk⟩
      exact ⟨[], [], rfl, by simp, by simp [h0], by simp, hk⟩
    · rintro ⟨pre, post, hs, _, hmin, _, hk⟩
      have hs2 := hs.symm
      rw [List.append_eq_nil] at hs2
      obtain ⟨h1, h2⟩ := hs2
      subst h1 h2
      exact ⟨by simpa using hmin, hk⟩
  | cons c cs ih =>
    intro min max
    simp only [matchRep, Bool.or_eq_true, Bool.and_eq_true, decide_eq_true_eq]
    rw [ih]
    constructor
    · rintro (⟨⟨hc, hcan⟩, pre, post, hs, hall, hmin, hmax, hk⟩ | ⟨h0, hk⟩)
      · refine ⟨c :: pre, post, by simp [hs], ?_, ?_, ?_, hk⟩
        · intro d hd
          rcases List.mem_cons.1 hd with h | h
          · rw [h]; exact hc
          · exact hall d h
        · simp only [List.length_cons]; omega
        · intro m hm
          subst hm
          have h1 := hmax (m - 1) rfl
          simp only [canRepeat, decide_eq_true_eq] at hcan
          simp only [List.length_cons]; omega
      · exact ⟨[], c :: cs, rfl, by simp, by simp [h0], by simp, hk⟩
    · rintro ⟨pre, post, hs, hall, hmin, hmax, hk⟩
      cases pre with
      | nil =>
        right
        simp only [List.nil_append] at hs
        rw [hs]
        exact ⟨by simpa using hmin, hk⟩
      | cons d pre =>
        left
        simp only [List.cons_append, List.cons.injEq] at hs
        obtain ⟨hd, hs⟩ := hs
        subst hd
        refine ⟨⟨hall c (List.mem_cons_self _ _), ?_⟩, pre, post, hs,
          fun e he => hall e (List.mem_cons_of_mem _ he), ?_, ?_, hk⟩
        · cases max with
          | none => rfl
          | some m =>
            have := hmax m rfl
            simp only [List.length_cons] at this
            simp only [canRepeat, decide_eq_true_eq]; omega
        · simp only [List.length_cons] at hmin; omega
        · intro m hm
          cases max with
          | none => simp at hm
          | some m0 =>
            have := hmax m0 rfl
            simp only [List.length_cons] at this
            simp only [Option.map_some', Option.some.injEq] at hm
            omega

theorem all_eq_length_one (a : Nat) (pre : JSString) (h : ∀ c ∈ pre, (c == a) = true)
    (h1 : 1 ≤ pre.length) (h2 : pre.length ≤ 1) : pre = [a] := by
  match pre, h, h1, h2 with
  | [d], h, _, _ =>
    have := h d (List.mem_singleton_self d)
    simp only [beq_iff_eq] at this
    rw [this]
  | [], _, h1, _ => simp at h1
  | _ :: _ :: _, _, _, h2 => simp at h2

theorem matchAtoms_email_iff (t : JSString) :
    matchAtoms emailPattern t = true ↔
      ∃ L D T : JSString, t = L ++ [64] ++ D ++ [46] ++ T ∧
        L ≠ [] ∧ (∀ c ∈ L, isEmailLocalChar c = true) ∧
        D ≠ [] ∧ (∀ c ∈ D, isEmailDomainChar c = true) ∧
        2 ≤ T.length ∧ (∀ c ∈ T, isAsciiLetter c = true) := by
  simp only [emailPattern, matchAtoms, matchRep_iff]
  constructor
  · rintro ⟨L, r1, h1, hL, hLlen, -, A, r2, h2, hA, hA1, hA2, D, r3, h3, hD, hDlen, -,
      B, r4, h4, hB, hB1, hB2, T, r5, h5, hT, hTlen, -, hend⟩
    have hA' := all_eq_length_one 64 A hA hA1 (hA2 1 rfl)
    have hB' := all_eq_length_one 46 B hB hB1 (hB2 1 rfl)
    have hr5 : r5 = [] := by simpa using hend
    subst hA' hB' hr5
    refine ⟨L, D, T, ?_, ?_, hL, ?_, hD, hTlen, hT⟩
    · rw [h1, h2, h3, h4, h5]; simp
    · intro h; rw [h] at hLlen; simp at hLlen
    · intro h; rw [h] at hDlen; simp at hDlen
  · rintro ⟨L, D, T, ht, hLne, hL, hDne, hD, hTlen, hT⟩
    refine ⟨L, [64] ++ D ++ [46] ++ T, by rw [ht]; simp, hL,
      List.length_pos.2 hLne, by simp, [64], D ++ [46] ++ T, by simp, by simp, by simp,
      by simp, D, [46] ++ T, by simp, hD, List.length_pos.2 hDne, by simp, [46], T, rfl,
      by simp, by simp, by simp, T, [], by simp, hT, hTlen, by simp, rfl⟩

theorem validateInput_email_eq (v : JSValue) :
    validateInput v (.str (js "email")) = matchAtoms emailPattern (sanitizeInput v) := by
  simp [validateInput]

/-- C8: `validateInput(s, 'email')` is true exactly when the sanitized string is
`L + '@' + D + '.' + T` with `L` non-empty over `[A-Za-z0-9._%+-]`, `D` non-empty over
`[A-Za-z0-9.-]` and `T` made of two or more ASCII letters; it is true for `"a@b.co"` and
false for `"not-an-email"`. -/
theorem validateInput_email_iff (s : JSString) :
    (validateInput (.str s) (.str (js "email")) = true ↔
      ∃ L D T : JSString, sanitizeInput (.str s) = L ++ [64] ++ D ++ [46] ++ T ∧
        L ≠ [] ∧ (∀ c ∈ L, isEmailLocalChar c = true) ∧
        D ≠ [] ∧ (∀ c ∈ D, isEmailDomainChar c = true) ∧
        2 ≤ T.length ∧ (∀ c ∈ T, isAsciiLetter c = true)) ∧
    validateInput (.str (js "a@b.co")) (.str (js "email")) = true ∧
    validateInput (.str (js "not-an-email")) (.str (js "email")) = false := by
  refine ⟨?_, by decide, by decide⟩
  rw [validateInput_email_eq, matchAtoms_email_iff]

theorem matchAtoms_name_iff (t : JSString) :
    matchAtoms namePattern t = true ↔
      2 ≤ t.length ∧ t.length ≤ 50 ∧ ∀ c ∈ t, isNameChar c = true := by
  simp only [namePattern, matchAtoms, matchRep_iff]
  constructor
  · rintro ⟨pre, post, ht, hall, hmin, hmax, hend⟩
    have hpost : post = [] := by simpa using hend
    subst hpost
    rw [List.append_nil] at ht
    subst ht
    exact ⟨hmin, hmax 50 rfl, hall⟩
  · rintro ⟨h2, h50, hall⟩
    exact ⟨t, [], by simp, hall, h2, fun m hm => by simp at hm; omega, rfl⟩

theorem validateInput_name_eq (v : JSValue) :
    validateInput v (.str (js "name")) =
      (matchAtoms namePattern (sanitizeInput v) && decide (2 ≤ (sanitizeInput v).length)) := by
  have h1 : js "name" ≠ js "email" := by decide
  have h2 : js "name" ≠ js "phone" := by decide
  simp [validateInput, h1, h2]

/-- C9, as stated, fails: `"a×b"` (code units 97, 215, 98) and `"a<TAB>b"` (97, 9, 98) are
accepted as names although the multiplication sign is not a letter and a tab is not a
space. -/
theorem validateInput_name_accepts_non_letters :
    (validateInput (.str [97, 215, 98]) (.str (js "name")) = true ∧
      specNameOk (sanitizeInput (.str [97, 215, 98])) = false) ∧
    (validateInput (.str [97, 9, 98]) (.str (js "name")) = true ∧
      specNameOk (sanitizeInput (.str [97, 9, 98])) = false) := by
  decide

/-- C9, amended: `validateInput(s, 'name')` is true exactly when the sanitized string has
2 to 50 code units, each of them an ASCII letter, a code unit from U+00C0 to U+00FF, a
white-space character of the class `\s`, a hyphen or an apostrophe; it is false for `"J"`
and true for `"Jean-Paul"`. -/
theorem validateInput_name_iff (s : JSString) :
    (validateInput (.str s) (.str (js "name")) = true ↔
      2 ≤ (sanitizeInput (.str s)).length ∧ (sanitizeInput (.str s)).length ≤ 50 ∧
        ∀ c ∈ sanitizeInput (.str s),
          isAsciiLetter c = true ∨ (192 ≤ c ∧ c ≤ 255) ∨ isWhiteSpace c = true ∨
            c = 45 ∨ c = 39) ∧
    validateInput (.str (js "J")) (.str (js "name")) = false ∧
    validateInput (.str (js "Jean-Paul")) (.str (js "name")) = true := by
  refine ⟨?_, by decide, by decide⟩
  rw [validateInput_name_eq, Bool.and_eq_true, matchAtoms_name_iff]
  simp only [isNameChar, Bool.or_eq_true, Bool.and_eq_true, decide_eq_true_eq, beq_iff_eq,
    or_assoc]
  tauto

/-! ## Theorems: rateLimiter -/

theorem canSubmit_unfold (rl : RateLimiter) (now : Int) (ua f : JSString) :
    ∃ m1 : AttemptMap, (∀ k, k ≠ rateKey f ua → m1 k = rl.attempts k) ∧
      canSubmit rl now ua f =
        if 5 ≤ ((rl.log (rateKey f ua)).filter (fun t => decide (now - t < 300000))).length
        then (false, ⟨m1.set (rateKey f ua)
          ((rl.log (rateKey f ua)).filter (fun t => decide (now - t < 300000)))⟩)
        else (true, ⟨(m1.set (rateKey f ua)
          ((rl.log (rateKey f ua)).filter (fun t => decide (now - t < 300000)))).set
            (rateKey f ua)
            ((rl.log (rateKey f ua)).filter (fun t => decide (now - t < 300000)) ++ [now])⟩) := by
  by_cases hs : (rl.attempts (rateKey f ua)).isSome = true
  · refine ⟨rl.attempts, fun _ _ => rfl, ?_⟩
    simp only [canSubmit, hs, if_true, RateLimiter.log, maxAttempts, timeWindow, ge_iff_le]
  · refine ⟨rl.attempts.set (rateKey f ua) [], fun k hk => by simp [AttemptMap.set, hk], ?_⟩
    have hn : rl.attempts (rateKey f ua) = none := by simpa using hs
    simp only [canSubmit, hs, if_false, RateLimiter.log, maxAttempts, timeWindow, ge_iff_le,
      hn, Option.getD_none]
    simp [AttemptMap.set]

theorem canSubmit_result (rl : RateLimiter) (now : Int) (ua f : JSString) :
    (canSubmit rl now ua f).1 =
      decide (((rl.log (rateKey f ua)).filter
        (fun t => decide (now - t < 300000))).length < 5) := by
  obtain ⟨m1, _, h⟩ := canSubmit_unfold rl now ua f
  rw [h]
  split_ifs with h5
  · simp; omega
  · simp; omega

theorem canSubmit_attempts_self (rl : RateLimiter) (now : Int) (ua f : JSString) :
    (canSubmit rl now ua f).2.attempts (rateKey f ua) =
      some (if 5 ≤ ((rl.log (rateKey f ua)).filter
          (fun t => decide (now - t < 300000))).length
        then (rl.log (rateKey f ua)).filter (fun t => decide (now - t < 300000))
        else (rl.log (rateKey f ua)).filter (fun t => decide (now - t < 300000)) ++ [now]) := by
  obtain ⟨m1, _, h⟩ := canSubmit_unfold rl now ua f
  rw [h]
  split_ifs with h5 <;> simp [AttemptMap.set]

theorem canSubmit_attempts_other (rl : RateLimiter) (now : Int) (ua f k : JSString)
    (hk : k ≠ rateKey f ua) :
    (canSubmit rl now ua f).2.attempts k = rl.attempts k := by
  obtain ⟨m1, hm, h⟩ := canSubmit_unfold rl now ua f
  rw [h]
  split_ifs with h5 <;> simp [AttemptMap.set, hk, hm k hk]

/-- C5: `canSubmit` prunes the stored log of its key to the timestamps `t` with
`now - t < 300000` (so a timestamp exactly 300000 ms old is dropped); with 5 or more
timestamps left it returns `false` and stores the pruned log, otherwise it returns `true`
and stores the pruned log followed by `now`; the logs of all other keys are unchanged. -/
theorem canSubmit_prune_check_append (rl : RateLimiter) (now : Int) (ua f : JSString) :
    (if 5 ≤ (((rl.attempts (rateKey f ua)).getD []).filter
          (fun t => decide (now - t < 300000))).length
      then (canSubmit rl now ua f).1 = false ∧
        (canSubmit rl now ua f).2.attempts (rateKey f ua) =
          some (((rl.attempts (rateKey f ua)).getD []).filter
            (fun t => decide (now - t < 300000)))
      else (canSubmit rl now ua f).1 = true ∧
        (canSubmit rl now ua f).2.attempts (rateKey f ua) =
          some (((rl.attempts (rateKey f ua)).getD []).filter
            (fun t => decide (now - t < 300000)) ++ [now])) ∧
    (∀ k, k ≠ rateKey f ua → (canSubmit rl now ua f).2.attempts k = rl.attempts k) := by
  refine ⟨?_, fun k hk => canSubmit_attempts_other rl now ua f k hk⟩
  have h1 := canSubmit_result rl now ua f
  have h2 := canSubmit_attempts_self rl now ua f
  simp only [RateLimiter.log] at h1 h2
  split_ifs with h
  · rw [h1, h2, if_pos h]
    exact ⟨by simp; omega, rfl⟩
  · rw [h1, h2, if_neg h]
    exact ⟨by simp; omega, rfl⟩

theorem canSubmit_log_self (rl : RateLimiter) (now : Int) (ua f : JSString) :
    (canSubmit rl now ua f).2.log (rateKey f ua) =
      if 5 ≤ ((rl.log (rateKey f ua)).filter
          (fun t => decide (now - t < 300000))).length
        then (rl.log (rateKey f ua)).filter (fun t => decide (now - t < 300000))
        else (rl.log (rateKey f ua)).filter (fun t => decide (now - t < 300000)) ++ [now] := by
  rw [RateLimiter.log, canSubmit_attempts_self]
  rfl

theorem canSubmit_log_other (rl : RateLimiter) (now : Int) (ua f k : JSString)
    (hk : k ≠ rateKey f ua) : (canSubmit rl now ua f).2.log k = rl.log k := by
  rw [RateLimiter.log, canSubmit_attempts_other rl now ua f k hk]
  rfl

theorem filter_window_all (l : List Int) (now : Int) (h : ∀ x ∈ l, now - x < 300000) :
    l.filter (fun t => decide (now - t < 300000)) = l := by
  rw [List.filter_eq_self]
  intro a ha
  simpa using h a ha

theorem grant_step (rl : RateLimiter) (now : Int) (ua f : JSString) (l : List Int)
    (hl : rl.log (rateKey f ua) = l) (hall : ∀ x ∈ l, now - x < 300000)
    (hlen : l.length < 5) :
    (canSubmit rl now ua f).1 = true ∧
      (canSubmit rl now ua f).2.log (rateKey f ua) = l ++ [now] := by
  rw [canSubmit_result, canSubmit_log_self, hl, filter_window_all l now hall]
  exact ⟨by simpa using hlen, by rw [if_neg (by omega)]⟩

theorem deny_step (rl : RateLimiter) (now : Int) (ua f : JSString) (l : List Int)
    (hl : rl.log (rateKey f ua) = l) (hall : ∀ x ∈ l, now - x < 300000)
    (hlen : 5 ≤ l.length) :
    (canSubmit rl now ua f).1 = false ∧
      (canSubmit rl now ua f).2.log (rateKey f ua) = l := by
  rw [canSubmit_result, canSubmit_log_self, hl, filter_window_all l now hall]
  exact ⟨by simpa using hlen, by rw [if_pos hlen]⟩

/-- C4: from a state with no log for the key, six calls for that key at non-decreasing
times `t1 .. t6` with `t6 - t1 < 300000` return true five times and then false, and the
next call, at any time `t` with `t - t1 ≥ 300000`, returns true. -/
theorem canSubmit_five_then_denied_then_granted (rl : RateLimiter) (f ua : JSString)
    (t1 t2 t3 t4 t5 t6 t : Int) (hfresh : rl.attempts (rateKey f ua) = none)
    (h12 : t1 ≤ t2) (h23 : t2 ≤ t3) (h34 : t3 ≤ t4) (h45 : t4 ≤ t5) (h56 : t5 ≤ t6)
    (hwin : t6 - t1 < 300000) (hlater : t - t1 ≥ 300000) :
    (runCalls rl [⟨f, ua, t1⟩, ⟨f, ua, t2⟩, ⟨f, ua, t3⟩, ⟨f, ua, t4⟩, ⟨f, ua, t5⟩,
      ⟨f, ua, t6⟩, ⟨f, ua, t⟩]).map Prod.snd =
      [true, true, true, true, true, false, true] := by
  have l0 : rl.log (rateKey f ua) = [] := by simp [RateLimiter.log, hfresh]
  obtain ⟨r1, l1⟩ := grant_step rl t1 ua f [] l0 (by simp) (by simp)
  obtain ⟨r2, l2⟩ := grant_step _ t2 ua f _ l1 (by simp; omega) (by simp)
  obtain ⟨r3, l3⟩ := grant_step _ t3 ua f _ l2
    (by simp only [List.nil_append, List.cons_append, List.mem_cons, List.mem_singleton,
          List.not_mem_nil, or_false]
        rintro x (h | h) <;> omega) (by simp)
  obtain ⟨r4, l4⟩ := grant_step _ t4 ua f _ l3
    (by simp only [List.nil_append, List.cons_append, List.mem_cons, List.mem_singleton,
          List.not_mem_nil, or_false]
        rintro x (h | h | h) <;> omega) (by simp)
  obtain ⟨r5, l5⟩ := grant_step _ t5 ua f _ l4
    (by simp only [List.nil_append, List.cons_append, List.mem_cons, List.mem_singleton,
          List.not_mem_nil, or_false]
        rintro x (h | h | h | h) <;> omega) (by simp)
  obtain ⟨r6, l6⟩ := deny_step _ t6 ua f _ l5
    (by simp only [List.nil_append, List.cons_append, List.mem_cons, List.mem_singleton,
          List.not_mem_nil, or_false]
        rintro x (h | h | h | h | h) <;> omega) (by simp)
  have hdrop : ([t1, t2, t3, t4, t5] : List Int).filter (fun x => decide (t - x < 300000)) =
      [t2, t3, t4, t5].filter (fun x => decide (t - x < 300000)) := by
    apply List.filter_cons_of_neg
    simp only [decide_eq_true_eq]; omega
  have hle := List.length_filter_le (fun x => decide (t - x < 300000)) [t2, t3, t4, t5]
  simp only [List.length_cons, List.length_nil] at hle
  have r7t : (canSubmit (canSubmit (canSubmit (canSubmit (canSubmit (canSubmit
      (canSubmit rl t1 ua f).2 t2 ua f).2 t3 ua f).2 t4 ua f).2 t5 ua f).2 t6 ua f).2
      t ua f).1 = true := by
    rw [canSubmit_result, l6, decide_eq_true_eq]
    simp only [List.nil_append, List.cons_append]
    rw [hdrop]; omega
  simp only [runCalls, List.map_cons, List.map_nil, r1, r2, r3, r4, r5, r6, r7t]

/-- Witness for C4: form `"contact"`, user agent `"UA"`, calls at 0, 10, 20, 30, 40, 50 and
then at 300000. -/
theorem canSubmit_five_then_denied_then_granted_witness :
    (runCalls ⟨AttemptMap.empty⟩ [⟨js "contact", js "UA", 0⟩, ⟨js "contact", js "UA", 10⟩,
      ⟨js "contact", js "UA", 20⟩, ⟨js "contact", js "UA", 30⟩, ⟨js "contact", js "UA", 40⟩,
      ⟨js "contact", js "UA", 50⟩, ⟨js "contact", js "UA", 300000⟩]).map Prod.snd =
      [true, true, true, true, true, false, true] :=
  canSubmit_five_then_denied_then_granted ⟨AttemptMap.empty⟩ (js "contact") (js "UA")
    0 10 20 30 40 50 300000 rfl (by decide) (by decide) (by decide) (by decide) (by decide)
    (by decide) (by decide)

theorem logInv_other (rl : RateLimiter) (k : JSString) (G : List Int) (T now : Int)
    (ua f : JSString) (h : LogInv rl k G T) (hT : T ≤ now) (hk : k ≠ rateKey f ua) :
    LogInv (canSubmit rl now ua f).2 k G now := by
  refine ⟨fun θ hθ => ?_, fun s hs => le_trans (h.bound s hs) hT, h.ok⟩
  rw [canSubmit_log_other rl now ua f k hk]
  exact h.agree θ (by omega)

theorem filter_pruned (L : List Int) (now θ : Int) (hθ : now - 300000 ≤ θ) :
    (L.filter (fun t => decide (now - t < 300000))).filter (fun s => decide (θ < s)) =
      L.filter (fun s => decide (θ < s)) := by
  rw [List.filter_filter]
  apply List.filter_congr
  intro x _
  by_cases hx : θ < x
  · have : now - x < 300000 := by omega
    simp [hx, this]
  · simp [hx]

theorem pruned_eq (L : List Int) (now : Int) :
    L.filter (fun t => decide (now - t < 300000)) =
      L.filter (fun s => decide (now - 300000 < s)) := by
  apply List.filter_congr
  intro x _
  by_cases hx : now - 300000 < x
  · have : now - x < 300000 := by omega
    simp [hx, this]
  · have : ¬ (now - x < 300000) := by omega
    simp [hx, this]

theorem logInv_deny (rl : RateLimiter) (G : List Int) (T now : Int) (ua f : JSString)
    (h : LogInv rl (rateKey f ua) G T) (hT : T ≤ now)
    (hr : (canSubmit rl now ua f).1 = false) :
    LogInv (canSubmit rl now ua f).2 (rateKey f ua) G now := by
  refine ⟨fun θ hθ => ?_, fun s hs => le_trans (h.bound s hs) hT, h.ok⟩
  rw [canSubmit_result, decide_eq_false_iff_not] at hr
  rw [canSubmit_log_self, if_pos (by omega), filter_pruned _ _ _ hθ]
  exact h.agree θ (by omega)

theorem logInv_grant (rl : RateLimiter) (G : List Int) (T now : Int) (ua f : JSString)
    (h : LogInv rl (rateKey f ua) G T) (hT : T ≤ now)
    (hr : (canSubmit rl now ua f).1 = true) :
    LogInv (canSubmit rl now ua f).2 (rateKey f ua) (G ++ [now]) now := by
  rw [canSubmit_result, decide_eq_true_eq] at hr
  refine ⟨fun θ hθ => ?_, ?_, ?_⟩
  · rw [canSubmit_log_self, if_neg (by omega), List.filter_append, List.filter_append,
      filter_pruned _ _ _ hθ, h.agree θ (by omega)]
  · intro s hs
    rcases List.mem_append.1 hs with hs | hs
    · exact le_trans (h.bound s hs) hT
    · simp only [List.mem_singleton] at hs
      omega
  · have hG : (G.filter (fun s => decide (now - 300000 < s))).length < 5 := by
      rw [h.agree (now - 300000) (by omega), ← pruned_eq]
      exact hr
    intro t ht
    rw [List.filter_append, List.length_append]
    by_cases htn : t = now
    · subst htn
      have h1 : G.filter (fun s => decide (t - 300000 < s) && decide (s ≤ t)) =
          G.filter (fun s => decide (t - 300000 < s)) := by
        apply List.filter_congr
        intro x hx
        have : x ≤ t := le_trans (h.bound x hx) hT
        simp [this]
      have h2 := List.length_filter_le
        (fun s => decide (t - 300000 < s) && decide (s ≤ t)) [t]
      rw [h1]
      simp only [List.length_singleton] at h2
      omega
    · have htG : t ∈ G := by
        rcases List.mem_append.1 ht with ht | ht
        · exact ht
        · simp only [List.mem_singleton] at ht
          exact absurd ht htn
      have hlt : t < now := by
        have := h.bound t htG
        omega
      have h2 : ([now] : List Int).filter
          (fun s => decide (t - 300000 < s) && decide (s ≤ t)) = [] := by
        apply List.filter_cons_of_neg
        have : ¬ (now ≤ t) := by omega
        simp [this]
      rw [h2]
      simpa using h.ok t htG

theorem grantedTimes_cons (k : JSString) (c : Call) (r : Bool) (tr : List (Call × Bool)) :
    grantedTimes k ((c, r) :: tr) =
      if r = true ∧ rateKey c.formId c.userAgent = k then c.now :: grantedTimes k tr
      else grantedTimes k tr := by
  simp only [grantedTimes, List.filter_cons, Bool.and_eq_true, decide_eq_true_eq]
  split_ifs <;> rfl

theorem windowOk_run (k : JSString) :
    ∀ (calls : List Call) (rl : RateLimiter) (G : List Int) (T : Int),
      LogInv rl k G T → (∀ c ∈ calls, T ≤ c.now) →
      calls.Pairwise (fun a b => a.now ≤ b.now) →
      WindowOk (G ++ grantedTimes k (runCalls rl calls)) := by
  intro calls
  induction calls with
  | nil =>
    intro rl G T h _ _
    simpa [runCalls, grantedTimes] using h.ok
  | cons c cs ih =>
    intro rl G T h hT hp
    rw [List.pairwise_cons] at hp
    have hTc : T ≤ c.now := hT c (List.mem_cons_self _ _)
    rw [runCalls, grantedTimes_cons]
    by_cases hk : rateKey c.formId c.userAgent = k
    · subst hk
      cases hr : (canSubmit rl c.now c.userAgent c.formId).1 with
      | false =>
        rw [if_neg (by simp)]
        exact ih _ G c.now (logInv_deny rl G T c.now _ _ h hTc hr) hp.1 hp.2
      | true =>
        rw [if_pos ⟨rfl, rfl⟩]
        have := ih _ (G ++ [c.now]) c.now (logInv_grant rl G T c.now _ _ h hTc hr) hp.1 hp.2
        simpa using this
    · rw [if_neg (fun hh => hk hh.2)]
      exact ih _ G c.now (logInv_other rl k G T c.now _ _ h hTc (fun e => hk e.symm))
        hp.1 hp.2

/-- C6: in any sequence of `canSubmit` calls made at non-decreasing times from an empty
attempts map, for every key `k` and every time `t` at which a call for `k` returned true,
at most 5 of the calls for `k` that returned true have their time in `(t - 300000, t]`. -/
theorem at_most_five_granted_in_window (calls : List Call)
    (hsorted : calls.Pairwise (fun a b => a.now ≤ b.now)) (k : JSString) (t : Int)
    (ht : t ∈ grantedTimes k (runCalls ⟨AttemptMap.empty⟩ calls)) :
    ((grantedTimes k (runCalls ⟨AttemptMap.empty⟩ calls)).filter
      (fun s => decide (t - 300000 < s) && decide (s ≤ t))).length ≤ 5 := by
  cases calls with
  | nil => simp [runCalls, grantedTimes] at ht
  | cons c cs =>
    have hinit : LogInv ⟨AttemptMap.empty⟩ k [] c.now :=
      ⟨fun _ _ => by simp [RateLimiter.log, AttemptMap.empty], by simp,
        fun _ h => by simp at h⟩
    have hT : ∀ d ∈ c :: cs, c.now ≤ d.now := by
      intro d hd
      rcases List.mem_cons.1 hd with h | h
      · rw [h]
      · exact (List.pairwise_cons.1 hsorted).1 d h
    have := windowOk_run k (c :: cs) ⟨AttemptMap.empty⟩ [] c.now hinit hT hsorted
    rw [List.nil_append] at this
    exact this t ht

/-- Witness for C6: seven calls for one key at times 0 to 6; the call at time 4 was
granted. -/
theorem at_most_five_granted_in_window_witness :
    4 ∈ grantedTimes (rateKey (js "contact") (js "UA")) (runCalls ⟨AttemptMap.empty⟩
      [⟨js "contact", js "UA", 0⟩, ⟨js "contact", js "UA", 1⟩, ⟨js "contact", js "UA", 2⟩,
       ⟨js "contact", js "UA", 3⟩, ⟨js "contact", js "UA", 4⟩, ⟨js "contact", js "UA", 5⟩,
       ⟨js "contact", js "UA", 6⟩]) ∧
    ((grantedTimes (rateKey (js "contact") (js "UA")) (runCalls ⟨AttemptMap.empty⟩
      [⟨js "contact", js "UA", 0⟩, ⟨js "contact", js "UA", 1⟩, ⟨js "contact", js "UA", 2⟩,
       ⟨js "contact", js "UA", 3⟩, ⟨js "contact", js "UA", 4⟩, ⟨js "contact", js "UA", 5⟩,
       ⟨js "contact", js "UA", 6⟩])).filter
      (fun s => decide ((4 : Int) - 300000 < s) && decide (s ≤ 4))).length ≤ 5 :=
  ⟨by decide, at_most_five_granted_in_window _ (by decide) _ 4 (by decide)⟩

/-! ## Theorems: secureFormSubmit -/

theorem processInput_fst (input : Field) :
    (processInput input).1 =
      (!input.required ||
        validateInput (.str (sanitizeInput (.str input.value)))
          (.str (validationType input))) := by
  simp only [processInput]
  cases hr : input.required with
  | false =>
    simp only [Bool.false_and, Bool.false_eq_true, if_false, Bool.not_false, Bool.true_or]
    split_ifs <;> rfl
  | true =>
    cases hv : validateInput (.str (sanitizeInput (.str input.value)))
        (.str (validationType input)) with
    | false => simp
    | true =>
      simp only [Bool.not_true, Bool.and_false, Bool.false_eq_true, if_false, Bool.or_true]
      split_ifs <;> rfl

theorem validateInput_email_empty :
    validateInput (.str (sanitizeInput (.str []))) (.str (js "email")) = false := by
  decide

set_option maxRecDepth 100000 in
/-- C7, as stated, fails.  A required text control with placeholder `"NOM"` and value
`"12"` is typed as a name by the code (the placeholder is lower-cased first) and rejected,
while the limiter grants and `"12"` passes as text.  A required text control holding 112
ampersands is rejected although its value passes `validateInput` as text: the code hands
`validateInput` the already sanitized value, which is then sanitized a second time. -/
theorem secureFormSubmit_differs_from_spec :
    ((secureFormSubmit ⟨AttemptMap.empty⟩ 0 (js "UA")
        (some [⟨js "12", js "text", [], js "NOM", true⟩]) (js "contact")).result = false ∧
      specSubmitAllowed ⟨AttemptMap.empty⟩ 0 (js "UA")
        [⟨js "12", js "text", [], js "NOM", true⟩] (js "contact") = true) ∧
    ((secureFormSubmit ⟨AttemptMap.empty⟩ 0 (js "UA")
        (some [⟨List.replicate 112 38, js "text", [], [], true⟩]) (js "contact")).result =
        false ∧
      specSubmitAllowed ⟨AttemptMap.empty⟩ 0 (js "UA")
        [⟨List.replicate 112 38, js "text", [], [], true⟩] (js "contact") = true) := by
  decide

theorem secureFormSubmit_result_iff (rl : RateLimiter) (now : Int) (ua : JSString)
    (inputs : List Field) (formId : JSString) :
    (secureFormSubmit rl now ua (some inputs) formId).result = true ↔
      (canSubmit rl now ua formId).1 = true ∧
        ∀ f ∈ inputs, f.required = true →
          validateInput (.str (sanitizeInput (.str f.value))) (.str (validationType f)) =
            true := by
  simp only [secureFormSubmit]
  cases hc : (canSubmit rl now ua formId).1 with
  | false => simp
  | true =>
    simp only [Bool.true_eq_false, if_false, true_and]
    rw [List.all_eq_true]
    constructor
    · intro h f hf hreq
      have := h (processInput f) (List.mem_map_of_mem _ hf)
      rw [processInput_fst, hreq] at this
      simpa using this
    · intro h r hr
      obtain ⟨f, hf, rfl⟩ := List.mem_map.1 hr
      rw [processInput_fst]
      cases hreq : f.required with
      | false => rfl
      | true => simp [h f hf hreq]

theorem validationType_eq_spec_lowered (f : Field) :
    validationType f =
      specValidationType { f with placeholder := toLowerCase f.placeholder } := by
  simp only [validationType, specValidationType]
  have hnil : includes (toLowerCase []) (js "nom") = false := by decide
  by_cases hp : f.placeholder = []
  · simp [hp, hnil]
  · simp [hp]

theorem secureFormSubmit_denied (rl : RateLimiter) (now : Int) (ua : JSString)
    (inputs : List Field) (formId : JSString)
    (hden : (canSubmit rl now ua formId).1 = false) :
    (secureFormSubmit rl now ua (some inputs) formId).result = false ∧
      ∀ e ∈ (secureFormSubmit rl now ua (some inputs) formId).effects,
        ∃ m, e = Effect.alert m := by
  have hs : secureFormSubmit rl now ua (some inputs) formId =
      ⟨false, (canSubmit rl now ua formId).2, [Effect.alert
        (js "Trop de tentatives. Veuillez attendre 5 minutes avant de réessayer.")]⟩ := by
    simp only [secureFormSubmit]
    rw [if_pos hden]
  rw [hs]
  exact ⟨rfl, fun e he => ⟨_, List.mem_singleton.1 he⟩⟩

/-! ## Theorems: validateInput on other inputs -/

theorem sanitizeInput_of_non_string (v : JSValue) (h : typeOf v ≠ JSType.string) :
    sanitizeInput v = [] := by
  cases v <;> first | rfl | exact absurd rfl h

/-- C11: for every input whose `typeof` is not `string` and every value of the `type`
argument (the four labels, `undefined`, any other string or value), `validateInput`
returns false (the function is total: no exception is raised). -/
theorem validateInput_non_string (v type : JSValue) (h : typeOf v ≠ JSType.string) :
    validateInput v type = false := by
  have e1 : matchAtoms emailPattern [] = false := by decide
  have e2 : matchAtoms phonePattern [] = false := by decide
  have e3 : matchAtoms namePattern [] = false := by decide
  simp only [validateInput, sanitizeInput_of_non_string v h]
  split_ifs <;> simp [e1, e2, e3]

/-- Witness for C11: the number 42 validated as an email. -/
theorem validateInput_non_string_witness :
    typeOf (JSValue.num 42) ≠ JSType.string ∧
      validateInput (JSValue.num 42) (.str (js "email")) = false :=
  ⟨by decide, validateInput_non_string (JSValue.num 42) (.str (js "email")) (by decide)⟩

theorem matchAtoms_mem :
    ∀ (atoms : List Atom) (t : JSString), matchAtoms atoms t = true →
      ∀ c ∈ t, ∃ a ∈ atoms, a.cls c = true := by
  intro atoms
  induction atoms with
  | nil =>
    intro t ht c hc
    simp only [matchAtoms, List.isEmpty_iff] at ht
    rw [ht] at hc
    simp at hc
  | cons a rest ih =>
    intro t ht c hc
    rw [matchAtoms, matchRep_iff] at ht
    obtain ⟨pre, post, hsplit, hpre, _, _, hpost⟩ := ht
    rw [hsplit] at hc
    rcases List.mem_append.1 hc with h | h
    · exact ⟨a, List.mem_cons_self _ _, hpre c h⟩
    · obtain ⟨b, hb, hbc⟩ := ih post hpost c h
      exact ⟨b, List.mem_cons_of_mem _ hb, hbc⟩

theorem matchAtoms_false_of_mem (atoms : List Atom) (t : JSString) (c : Nat) (hc : c ∈ t)
    (hcls : ∀ a ∈ atoms, a.cls c = false) : matchAtoms atoms t = false := by
  rw [← Bool.not_eq_true]
  intro hm
  obtain ⟨a, ha, hac⟩ := matchAtoms_mem atoms t hm c hc
  rw [hcls a ha] at hac
  exact absurd hac (by simp)

theorem amp_mem_sanitizeInput (s : JSString) (h : ∃ c ∈ s, isEscapeChar c = true) :
    38 ∈ sanitizeInput (.str s) := by
  obtain ⟨c, hc, hesc⟩ := h
  have := amp_mem_replaceEscapes s c hc hesc
  simp only [sanitizeInput]
  rw [← List.count_pos_iff, count_trim _ 38 (by decide), List.count_pos_iff]
  exact this

theorem validateInput_phone_eq (v : JSValue) :
    validateInput v (.str (js "phone")) = matchAtoms phonePattern (sanitizeInput v) := by
  have h1 : js "phone" ≠ js "email" := by decide
  simp [validateInput, h1]

theorem emailPattern_rejects_amp : ∀ a ∈ emailPattern, a.cls 38 = false := by
  intro a ha
  simp only [emailPattern, List.mem_cons, List.mem_singleton, List.not_mem_nil, or_false] at ha
  rcases ha with h | h | h | h | h <;> rw [h] <;> decide

theorem phonePattern_rejects_amp : ∀ a ∈ phonePattern, a.cls 38 = false := by
  intro a ha
  simp only [phonePattern, List.mem_cons, List.mem_singleton, List.not_mem_nil, or_false] at ha
  rcases ha with h | h <;> rw [h] <;> decide

theorem namePattern_rejects_amp : ∀ a ∈ namePattern, a.cls 38 = false := by
  intro a ha
  simp only [namePattern, List.mem_singleton] at ha
  rw [ha]; decide

/-- C13: a string that contains one of the characters `<`, `>`, `"`, the apostrophe or `&`
is rejected by `validateInput` as an email, as a phone number and as a name, because its
sanitized form contains `&`, which none of the three patterns allows; in particular the
name `O'Brien` (code units 79, 39, 66, 114, 105, 101, 110) is rejected. -/
theorem validateInput_rejects_escaped (s : JSString) (h : ∃ c ∈ s, isEscapeChar c = true) :
    validateInput (.str s) (.str (js "email")) = false ∧
    validateInput (.str s) (.str (js "phone")) = false ∧
    validateInput (.str s) (.str (js "name")) = false ∧
    validateInput (.str [79, 39, 66, 114, 105, 101, 110]) (.str (js "name")) = false := by
  have hamp := amp_mem_sanitizeInput s h
  refine ⟨?_, ?_, ?_, by decide⟩
  · rw [validateInput_email_eq]
    exact matchAtoms_false_of_mem _ _ 38 hamp emailPattern_rejects_amp
  · rw [validateInput_phone_eq]
    exact matchAtoms_false_of_mem _ _ 38 hamp phonePattern_rejects_amp
  · rw [validateInput_name_eq,
      matchAtoms_false_of_mem _ _ 38 hamp namePattern_rejects_amp]
    rfl

/-- Witness for C13: the name `O'Brien`, whose second code unit is the apostrophe. -/
theorem validateInput_rejects_escaped_witness :
    (∃ c ∈ [79, 39, 66, 114, 105, 101, 110], isEscapeChar c = true) ∧
    validateInput (.str [79, 39, 66, 114, 105, 101, 110]) (.str (js "email")) = false ∧
    validateInput (.str [79, 39, 66, 114, 105, 101, 110]) (.str (js "phone")) = false ∧
    validateInput (.str [79, 39, 66, 114, 105, 101, 110]) (.str (js "name")) = false ∧
    validateInput (.str [79, 39, 66, 114, 105, 101, 110]) (.str (js "name")) = false :=
  ⟨⟨39, by decide, by decide⟩,
    validateInput_rejects_escaped [79, 39, 66, 114, 105, 101, 110] ⟨39, by decide, by decide⟩⟩

/-! ## Theorems: text fields in secureFormSubmit -/

theorem validateInput_text_eq (v : JSValue) :
    validateInput v (.str (js "text")) =
      (decide (0 < (sanitizeInput v).length) && decide ((sanitizeInput v).length ≤ 1000)) := by
  have h1 : js "text" ≠ js "email" := by decide
  have h2 : js "text" ≠ js "phone" := by decide
  have h3 : js "text" ≠ js "name" := by decide
  simp [validateInput, h1, h2, h3]

theorem secureFormSubmit_result_of_grant (rl : RateLimiter) (now : Int) (ua : JSString)
    (inputs : List Field) (formId : JSString) (hgrant : (canSubmit rl now ua formId).1 = true) :
    (secureFormSubmit rl now ua (some inputs) formId).result =
      inputs.all (fun f => (processInput f).1) := by
  simp only [secureFormSubmit, hgrant, Bool.true_eq_false, if_false]
  induction inputs with
  | nil => rfl
  | cons a l ih => simp only [List.map_cons, List.all_cons, ih]

set_option maxRecDepth 100000 in
/-- C12, at the failing input: a required text control holding 101 apostrophes has a
once-sanitized value of 606 code units, within the limit of 1000, yet it is rejected on a
granted call, because `validateInput` sanitizes the already sanitized value again, to 1010
code units. -/
theorem secureFormSubmit_text_rejected_within_limit :
    (canSubmit ⟨AttemptMap.empty⟩ 0 (js "UA") (js "contact")).1 = true ∧
    validationType ⟨List.replicate 101 39, js "text", [], [], true⟩ = js "text" ∧
    specTextAccepted ⟨List.replicate 101 39, js "text", [], [], true⟩ = true ∧
    (processInput ⟨List.replicate 101 39, js "text", [], [], true⟩).1 = false ∧
    (secureFormSubmit ⟨AttemptMap.empty⟩ 0 (js "UA")
      (some [⟨List.replicate 101 39, js "text", [], [], true⟩]) (js "contact")).result =
        false := by
  decide

/-- What the code does with a required text control on a granted call: the control leaves
the result as the other controls make it exactly when its value, passed through
`sanitizeInput` twice, is non-empty and at most 1000 code units long. -/
theorem secureFormSubmit_text_accepted_iff (rl : RateLimiter) (now : Int) (ua : JSString)
    (formId : JSString) (before after : List Field) (f : Field)
    (hgrant : (canSubmit rl now ua formId).1 = true) (hreq : f.required = true)
    (htext : validationType f = js "text") :
    (secureFormSubmit rl now ua (some (before ++ f :: after)) formId).result = true ↔
      (secureFormSubmit rl now ua (some (before ++ after)) formId).result = true ∧
        0 < (sanitizeInput (.str (sanitizeInput (.str f.value)))).length ∧
        (sanitizeInput (.str (sanitizeInput (.str f.value)))).length ≤ 1000 := by
  rw [secureFormSubmit_result_of_grant _ _ _ _ _ hgrant,
    secureFormSubmit_result_of_grant _ _ _ _ _ hgrant, List.all_append, List.all_cons,
    List.all_append, processInput_fst, hreq, htext, validateInput_text_eq]
  simp only [Bool.not_true, Bool.false_or, Bool.and_eq_true, decide_eq_true_eq]
  tauto

/-! ## Theorems: the verdict of secureFormSubmit -/

theorem sanitizeInput_twice_of_no_amp (v : JSString) (h : 38 ∉ sanitizeInput (.str v)) :
    sanitizeInput (.str (sanitizeInput (.str v))) = sanitizeInput (.str v) := by
  have hesc : ∀ c ∈ trim (replaceEscapes v), isEscapeChar c = false := by
    intro c hc
    have h4 := mem_replaceEscapes v c ((trim_sublist _).subset hc)
    have h38 : c ≠ 38 := fun e => h (e ▸ hc)
    rw [← Bool.not_eq_true, isEscapeChar_iff]
    omega
  show trim (replaceEscapes (trim (replaceEscapes v))) = trim (replaceEscapes v)
  rw [replaceEscapes_eq_self _ hesc]
  exact trim_trim _

theorem sanitizeInput_twice_of_no_escape (v : JSString)
    (h : ∀ c ∈ v, isEscapeChar c = false) :
    sanitizeInput (.str (sanitizeInput (.str v))) = sanitizeInput (.str v) := by
  apply sanitizeInput_twice_of_no_amp
  intro h38
  have hv : 38 ∈ v := by
    have : 38 ∈ trim (replaceEscapes v) := h38
    rw [replaceEscapes_eq_self v h] at this
    exact (trim_sublist v).subset this
  have := h 38 hv
  exact absurd this (by decide)

theorem validateInput_congr (a b type : JSValue) (h : sanitizeInput a = sanitizeInput b) :
    validateInput a type = validateInput b type := by
  simp only [validateInput, h]

theorem validateInput_sanitized_eq (v t : JSString)
    (ht : t = js "email" ∨ t = js "phone" ∨ t = js "name") :
    validateInput (.str (sanitizeInput (.str v))) (.str t) = validateInput (.str v) (.str t) := by
  by_cases h : 38 ∈ sanitizeInput (.str v)
  · have h2 : 38 ∈ sanitizeInput (.str (sanitizeInput (.str v))) :=
      amp_mem_sanitizeInput _ ⟨38, h, by decide⟩
    rcases ht with ht | ht | ht <;> subst ht
    · rw [validateInput_email_eq, validateInput_email_eq,
        matchAtoms_false_of_mem _ _ 38 h2 emailPattern_rejects_amp,
        matchAtoms_false_of_mem _ _ 38 h emailPattern_rejects_amp]
    · rw [validateInput_phone_eq, validateInput_phone_eq,
        matchAtoms_false_of_mem _ _ 38 h2 phonePattern_rejects_amp,
        matchAtoms_false_of_mem _ _ 38 h phonePattern_rejects_amp]
    · rw [validateInput_name_eq, validateInput_name_eq,
        matchAtoms_false_of_mem _ _ 38 h2 namePattern_rejects_amp,
        matchAtoms_false_of_mem _ _ 38 h namePattern_rejects_amp]
      rfl
  · exact validateInput_congr _ _ _ (sanitizeInput_twice_of_no_amp v h)

theorem length_replaceEscapes_ge (w : JSString) : w.length ≤ (replaceEscapes w).length := by
  induction w with
  | nil => simp
  | cons a r ih =>
    rw [replaceEscapes_cons, List.length_append, List.length_cons]
    by_cases hesc : isEscapeChar a = true
    · rw [if_pos hesc]
      rcases replacer_of_escape a hesc with h | h | h | h | h <;> rw [h] <;>
        simp only [List.length_cons, List.length_nil] <;> omega
    · rw [if_neg hesc]
      simp only [List.length_cons, List.length_nil]
      omega

theorem replaceEscapes_head_not_ws (w : JSString)
    (hh : ∀ c, w.head? = some c → isWhiteSpace c = false) :
    ∀ c, (replaceEscapes w).head? = some c → isWhiteSpace c = false := by
  intro c hc
  cases w with
  | nil => simp [replaceEscapes] at hc
  | cons a r =>
    rw [replaceEscapes_cons] at hc
    by_cases hesc : isEscapeChar a = true
    · rw [if_pos hesc] at hc
      rcases replacer_of_escape a hesc with h | h | h | h | h <;> rw [h] at hc <;>
        simp only [List.cons_append, List.head?_cons, Option.some.injEq] at hc <;>
        rw [← hc] <;> decide
    · rw [if_neg hesc] at hc
      simp only [List.cons_append, List.head?_cons, Option.some.injEq] at hc
      rw [← hc]
      exact hh a rfl

theorem replaceEscapes_last_not_ws (w : JSString)
    (hl : ∀ c, w.getLast? = some c → isWhiteSpace c = false) :
    ∀ c, (replaceEscapes w).getLast? = some c → isWhiteSpace c = false := by
  intro c hc
  rcases List.eq_nil_or_concat w with h0 | ⟨init, a, h0⟩
  · rw [h0] at hc
    simp [replaceEscapes] at hc
  · rw [List.concat_eq_append] at h0
    subst h0
    have hsplit : replaceEscapes (init ++ [a]) =
        replaceEscapes init ++ (if isEscapeChar a then replacer a else [a]) := by
      simp [replaceEscapes]
    rw [hsplit] at hc
    by_cases hesc : isEscapeChar a = true
    · rw [if_pos hesc] at hc
      rcases replacer_of_escape a hesc with h | h | h | h | h <;> rw [h] at hc <;>
        simp [List.getLast?_append] at hc <;> rw [← hc] <;> decide
    · rw [if_neg hesc] at hc
      simp only [List.getLast?_concat, Option.some.injEq] at hc
      rw [← hc]
      exact hl a (List.getLast?_concat _)

theorem length_sanitizeInput_le_twice (v : JSString) :
    (sanitizeInput (.str v)).length ≤
      (sanitizeInput (.str (sanitizeInput (.str v)))).length := by
  have h : sanitizeInput (.str (sanitizeInput (.str v))) =
      replaceEscapes (sanitizeInput (.str v)) := by
    show trim (replaceEscapes (trim (replaceEscapes v))) =
      replaceEscapes (trim (replaceEscapes v))
    exact trim_eq_self _
      (replaceEscapes_head_not_ws _ (trim_head_not_ws _))
      (replaceEscapes_last_not_ws _ (trim_last_not_ws _))
  rw [h]
  exact length_replaceEscapes_ge _

theorem validateInput_text_of_sanitized (v : JSString)
    (h : validateInput (.str (sanitizeInput (.str v))) (.str (js "text")) = true) :
    validateInput (.str v) (.str (js "text")) = true := by
  rw [validateInput_text_eq, Bool.and_eq_true, decide_eq_true_eq, decide_eq_true_eq] at h ⊢
  have hle := length_sanitizeInput_le_twice v
  refine ⟨?_, by omega⟩
  rcases Nat.eq_zero_or_pos (sanitizeInput (.str v)).length with h0 | h0
  · rw [List.length_eq_zero] at h0
    rw [h0] at h
    exact absurd h.1 (by decide)
  · exact h0

theorem validationType_cases (f : Field) :
    validationType f = js "text" ∨
      (validationType f = js "email" ∨ validationType f = js "phone" ∨
        validationType f = js "name") := by
  simp only [validationType]
  split_ifs <;> simp

/-- C7, amended: for a non-null form, when `secureFormSubmit` returns true, `canSubmit`
has granted the attempt and every required control passes `validateInput` for its inferred
type; conversely it returns true when `canSubmit` grants and every required control passes
`validateInput` for its inferred type, provided that no required control of inferred type
text holds one of the five escaped characters.  The inferred type is the one of the
specification read on the lower-cased placeholder.  When the limiter denies, the result is
false and the only effect is the alert: no control is validated.  A form with a required
control of type `email` and empty value is rejected. -/
theorem secureFormSubmit_verdict (rl : RateLimiter) (now : Int) (ua : JSString)
    (inputs : List Field) (formId : JSString) :
    ((secureFormSubmit rl now ua (some inputs) formId).result = true →
      (canSubmit rl now ua formId).1 = true ∧
        ∀ f ∈ inputs, f.required = true →
          validateInput (.str f.value) (.str (validationType f)) = true) ∧
    (((canSubmit rl now ua formId).1 = true ∧
        ∀ f ∈ inputs, f.required = true →
          validateInput (.str f.value) (.str (validationType f)) = true ∧
            (validationType f = js "text" → ∀ c ∈ f.value, isEscapeChar c = false)) →
      (secureFormSubmit rl now ua (some inputs) formId).result = true) ∧
    (∀ f : Field, validationType f =
      specValidationType { f with placeholder := toLowerCase f.placeholder }) ∧
    ((canSubmit rl now ua formId).1 = false →
      (secureFormSubmit rl now ua (some inputs) formId).result = false ∧
      ∀ e ∈ (secureFormSubmit rl now ua (some inputs) formId).effects,
        ∃ m, e = Effect.alert m) ∧
    ((∃ f ∈ inputs, f.required = true ∧ f.type = js "email" ∧ f.value = []) →
      (secureFormSubmit rl now ua (some inputs) formId).result = false) := by
  have hfwd : (secureFormSubmit rl now ua (some inputs) formId).result = true →
      (canSubmit rl now ua formId).1 = true ∧
        ∀ f ∈ inputs, f.required = true →
          validateInput (.str f.value) (.str (validationType f)) = true := by
    intro hres
    obtain ⟨hg, hall⟩ := (secureFormSubmit_result_iff rl now ua inputs formId).1 hres
    refine ⟨hg, fun f hf hreq => ?_⟩
    have h := hall f hf hreq
    rcases validationType_cases f with ht | ht
    · rw [ht] at h ⊢
      exact validateInput_text_of_sanitized _ h
    · rw [validateInput_sanitized_eq _ _ ht] at h
      exact h
  refine ⟨hfwd, ?_, validationType_eq_spec_lowered, secureFormSubmit_denied rl now ua inputs formId,
    ?_⟩
  · rintro ⟨hg, hall⟩
    refine (secureFormSubmit_result_iff rl now ua inputs formId).2 ⟨hg, fun f hf hreq => ?_⟩
    obtain ⟨hv, hclean⟩ := hall f hf hreq
    rcases validationType_cases f with ht | ht
    · rw [validateInput_congr _ (.str f.value) _
        (sanitizeInput_twice_of_no_escape _ (hclean ht))]
      exact hv
    · rw [validateInput_sanitized_eq _ _ ht]
      exact hv
  · rintro ⟨f, hf, hreq, hty, hval⟩
    rw [← Bool.not_eq_true]
    intro hres
    have := (hfwd hres).2 f hf hreq
    have hvt : validationType f = js "email" := by simp [validationType, hty]
    rw [hval, hvt] at this
    exact absurd this (by decide)

end OneVec
